import Mathlib

/-!
# Verification of the radiograph-labelling tool's data layer

Shallow embedding of `pai_2025_outil_etiquetage_radiographies/data_manager.py`
(class `DataManager`) and proofs about it.

Modelling conventions:
* Python `dict`s are association lists (`List (key × value)`); lookup returns the
  first (and, in a real dict, only) binding, and assignment replaces the binding
  in place or appends a fresh one, exactly like insertion-ordered Python dicts.
* Python annotation records are free-form dicts; they are modelled by the record
  `Ann` whose fields are `Option`-valued: `none` models an absent key, mirroring
  every `ann.get(...)` in the source.
* Numbers stored in records (`x`, `y`, `width`, `height`, `confidence`) are
  modelled by `Rat`: the source only ever moves them around and compares them,
  never does float-specific arithmetic on the paths verified here.
* Filesystem effects are passed in explicitly: the list of entries existing
  under the dataset root, the parsed rows of the CSV that `load_dataset`
  selects, the per-image persisted annotation files, the bundled
  `pathology_references/<p>.json` contents, and `Path.resolve` (a pure
  function `norm` of the path string).
-/

/-! ## Python string primitives used by the source -/

/-- Model of Python `str.strip()` (restricted to the ASCII whitespace that
`Char.isWhitespace` covers; the CSV fields in play are ASCII). -/
def pyStrip (s : String) : String :=
  String.mk (((s.toList.dropWhile Char.isWhitespace).reverse.dropWhile
    Char.isWhitespace).reverse)

/-- Model of Python `str.upper()` on the ASCII data the source compares. -/
def pyUpper (s : String) : String :=
  String.mk (s.toList.map Char.toUpper)

/-- Model of Python `str.replace("Y", "")`: removes every `Y`. -/
def stripYChars (s : String) : String :=
  String.mk (s.toList.filter (fun c => c ≠ 'Y'))

/-- Splits a character list at every occurrence of `sep`, keeping empty
chunks, like Python `str.split(sep)` for a one-character separator. -/
def splitChars (sep : Char) : List Char → List (List Char)
  | [] => [[]]
  | c :: r =>
    match splitChars sep r with
    | [] => [[]]
    | g :: gs => if c = sep then [] :: g :: gs else (c :: g) :: gs

/-- Model of Python `str.split("|")`. -/
def pySplitPipe (s : String) : List String :=
  (splitChars '|' s.toList).map String.mk

/-- Model of Python `int(s)`: optional surrounding whitespace, optional sign,
then at least one decimal digit (digit-group underscores are not modelled;
no CSV in play uses them). -/
def pyInt? (s : String) : Option Int :=
  let t := pyStrip s
  let core := if t.startsWith "-" ∨ t.startsWith "+" then t.drop 1 else t
  if core.length ≠ 0 ∧ core.toList.all Char.isDigit then
    let n : Nat := core.toList.foldl (fun acc c => 10 * acc + (c.toNat - 48)) 0
    some (if t.startsWith "-" then -(n : Int) else (n : Int))
  else none

/-- Final path component, i.e. Python `Path(p).name`. -/
def baseName (p : String) : String :=
  match (p.toList.splitOn '/').getLast? with
  | some l => String.mk l
  | none => p

/-- Index of the last `'.'` in a character list, if any. -/
def lastDotIdx : List Char → Option Nat
  | [] => none
  | c :: r =>
    match lastDotIdx r with
    | some i => some (i + 1)
    | none => if c = '.' then some 0 else none

/-- Model of Python `Path(p).stem`: the final component without its last
extension. CPython keeps the whole name when the last dot is at position 0
(hidden file) or at the very end. -/
def stemOf (p : String) : String :=
  let name := (baseName p).toList
  match lastDotIdx name with
  | some i =>
    if 0 < i ∧ i < name.length - 1 then String.mk (name.take i) else String.mk name
  | none => String.mk name

/-- Zero-padded decimal rendering of `n` to (at least) `w` digits, like
Python's `%0wd` for non-negative numbers. -/
def padNat (w : Nat) (n : Nat) : String :=
  let s := toString n
  String.mk (List.replicate (w - s.length) '0') ++ s

/-! ## Calendar arithmetic for `Follow-up #` dates

`_load_metadata_from_csv` turns a numeric follow-up `n` into
`(datetime(2000,1,1) + timedelta(days=n)).strftime("%Y-%m-%d")`.
`civilFromDays` is the standard civil-from-days conversion on a count of days
since 1970-01-01. -/

def civilFromDays (z0 : Int) : Int × Nat × Nat :=
  let z : Int := z0 + 719468
  let era : Int := (if 0 ≤ z then z else z - 146096) / 146097
  let doe : Nat := (z - era * 146097).toNat
  let yoe : Nat := (doe - doe / 1460 + doe / 36524 - doe / 146096) / 365
  let doy : Nat := doe - (365 * yoe + yoe / 4 - yoe / 100)
  let mp : Nat := (5 * doy + 2) / 153
  let d : Nat := doy - (153 * mp + 2) / 5 + 1
  let m : Nat := if mp < 10 then mp + 3 else mp - 9
  ((yoe : Int) + era * 400 + (if m ≤ 2 then 1 else 0), m, d)

/-- `%Y-%m-%d` rendering of a day count since 1970-01-01. -/
def isoDateOfDays (z : Int) : String :=
  let c := civilFromDays z
  padNat 4 c.1.toNat ++ "-" ++ padNat 2 c.2.1 ++ "-" ++ padNat 2 c.2.2

/-! ## The data model -/

/-- A colour value as stored in an annotation record: either a live Qt
`QColor` object (the only thing in play with a `red` attribute) or an
already-flattened `{r, g, b, a}` dict read back from JSON. -/
inductive ColorV where
  | qcolor (r g b a : Nat)
  | cdict (r g b a : Nat)
deriving DecidableEq

/-- An annotation record (a free-form Python dict in the source; `none`
models an absent key). -/
structure Ann where
  type : Option String
  x : Option Rat
  y : Option Rat
  width : Option Rat
  height : Option Rat
  pathology : Option String
  author : Option String
  date : Option String
  confidence : Option Rat
  color : Option ColorV
deriving DecidableEq

/-- A per-image metadata entry as built by `_load_metadata_from_csv` /
`_generate_default_metadata`. Every constructor of the source writes all
seven keys, so the fields are total. -/
structure Metadata where
  patient_id : String
  age : String
  sex : String
  view : String
  date : String
  pathologies : List String
  filename : String
deriving DecidableEq

/-- The `DataManager` state touched by the verified operations
(`dataset_path`, `current_image_index` and the two output directories are
presentation state never read by them). -/
structure DataManager where
  images : List String
  metadata : List (String × Metadata)
  annotations : List (String × List Ann)
deriving DecidableEq

/-- One row of the metadata CSV as handed out by `csv.DictReader`:
`none` models a column absent from the file. -/
structure CsvRow where
  imageIndex : Option String
  filename : Option String
  findingLabels : Option String
  findingLabel : Option String
  patientId : Option String
  age : Option String
  sex : Option String
  viewPos : Option String
  followUp : Option String
deriving DecidableEq

/-- One `{image_stem, annotations}` entry of a bundled
`pathology_references/<pathology>.json` file (missing keys get the
source's defaults `""` / `[]` already applied). -/
structure RefExample where
  image_stem : String
  anns : List Ann
deriving DecidableEq

/-- The criteria dict accepted by `filter_images`. `none` models an absent
key; note that the source tests most values for Python truthiness, so e.g.
`some ""` behaves like `none` — the definitions below reproduce that. -/
structure Filters where
  pathology : Option String
  sex : Option String
  view : Option String
  date_min : Option String
  date_max : Option String
  age_min : Option Int
  age_max : Option Int
  has_annotations : Option Bool
deriving DecidableEq

def emptyFilters : Filters :=
  ⟨none, none, none, none, none, none, none, none⟩

/-! ## Python dicts as association lists -/

/-- First binding of `k`, i.e. `d[k]` / `d.get(k)`. -/
def alookup {α : Type} (l : List (String × α)) (k : String) : Option α :=
  match l with
  | [] => none
  | (k', v) :: r => if k' = k then some v else alookup r k

/-- Dict assignment `d[k] = v`: replaces the binding in place if the key is
present (Python dicts keep the key's insertion position), else appends. -/
def assocSet {α : Type} (l : List (String × α)) (k : String) (v : α) :
    List (String × α) :=
  match l with
  | [] => [(k, v)]
  | (k', v') :: r => if k' = k then (k, v) :: r else (k', v') :: assocSet r k v

theorem alookup_assocSet_self {α : Type} (l : List (String × α)) (k : String)
    (v : α) : alookup (assocSet l k v) k = some v := by
  induction l with
  | nil => simp [assocSet, alookup]
  | cons h t ih =>
    by_cases hk : h.1 = k
    · simp [assocSet, hk, alookup]
    · simp [assocSet, hk, alookup, ih]

theorem alookup_assocSet_ne {α : Type} (l : List (String × α)) (k q : String)
    (v : α) (hne : q ≠ k) : alookup (assocSet l k v) q = alookup l q := by
  induction l with
  | nil => simp [assocSet, alookup, Ne.symm hne]
  | cons h t ih =>
    by_cases hk : h.1 = k
    · subst hk
      simp [assocSet, alookup, Ne.symm hne]
    · simp [assocSet, hk, alookup, ih]

/-! ## `_parse_pathologies` -/

/-- Python `a or b` for an optional string and a fallback: `None` and `""`
are falsy. -/
def pyOr (a : Option String) (b : String) : String :=
  match a with
  | some s => if s = "" then b else s
  | none => b

/-- `row.get("Finding Labels") or row.get("Finding Label") or ""`. -/
def findingField (row : CsvRow) : String :=
  pyOr row.findingLabels (pyOr row.findingLabel "")

/-- `DataManager._parse_pathologies` (the local `labels` is inlined). -/
def parse_pathologies (row : CsvRow) : List String :=
  if pyStrip (findingField row) = "" ∨ pyStrip (findingField row) = "No Finding"
  then []
  else ((pySplitPipe (pyStrip (findingField row))).map pyStrip).filter
    (fun s => s ≠ "")

/-! ## Dataset discovery (`load_dataset`, lines 37-41) -/

/-- The six literal glob suffixes the source tries: each extension in
`[".png", ".jpg", ".jpeg"]` and its `.upper()`. -/
def IMAGE_EXT_PATTERNS : List String := [".png", ".PNG", ".jpg", ".JPG", ".jpeg", ".JPEG"]

/-- Whether `dataset_path.glob(f"**/*{ext}")` matches entry `p` for one of the
six patterns: the path must end with the literal, case-sensitive suffix. -/
def keepExt (p : String) : Bool :=
  IMAGE_EXT_PATTERNS.any (fun e => e.toList.isSuffixOf p.toList)

/-- `sorted(set(images))` over the glob results: `files` is the list of
entries existing under the dataset root (empty when the root does not
exist — `Path.glob` yields nothing rather than raising). Each of the six
patterns contributes its matches; the union is deduplicated and sorted
lexicographically (Python compares `Path`s by their path string on POSIX). -/
def discoverImages (files : List String) : List String :=
  List.insertionSort (· ≤ ·) ((files.filter keepExt).dedup)

/-- `row.get("Image Index", row.get("filename", ""))`. -/
def imageName (row : CsvRow) : String :=
  (row.imageIndex.getD (row.filename.getD ""))

/-- Row-to-image resolution: `dataset_path / name` if it exists, else
`dataset_path / "images" / name` if it exists, else the row is dropped. -/
def resolveImage (root : String) (files : List String) (name : String) :
    Option String :=
  let p1 := root ++ "/" ++ name
  if p1 ∈ files then some p1
  else
    let p2 := root ++ "/images/" ++ name
    if p2 ∈ files then some p2 else none

/-- The synthetic date `datetime(2000,1,1) + timedelta(days=follow_num)`
(`10957` is 2000-01-01 as days since 1970-01-01); a non-numeric follow-up
falls back to today's date. -/
def rowDate (today : String) (row : CsvRow) : String :=
  match pyInt? (row.followUp.getD "000") with
  | some n => isoDateOfDays (10957 + n)
  | none => today

/-- The metadata dict built for one resolved CSV row. -/
def metadataOfRow (today : String) (row : CsvRow) (name : String) : Metadata :=
  { patient_id := row.patientId.getD ""
    age := row.age.getD ""
    sex := row.sex.getD ""
    view := row.viewPos.getD ""
    date := rowDate today row
    pathologies := parse_pathologies row
    filename := name }

/-- `DataManager._load_metadata_from_csv` over the parsed rows. -/
def loadMetadataFromCsv (root : String) (files : List String) (today : String)
    (rows : List CsvRow) : List (String × Metadata) :=
  rows.foldl
    (fun md row =>
      if imageName row = "" then md
      else
        match resolveImage root files (imageName row) with
        | none => md
        | some p => assocSet md p (metadataOfRow today row (imageName row)))
    []

/-- The default metadata dict `_generate_default_metadata` builds for one
image. `pyhash` stands for Python's process-seeded `hash` on strings (any
function of the path). -/
def defaultMetaFor (pyhash : String → Nat) (today : String) (p : String) :
    Metadata :=
  { patient_id := "P" ++ padNat 4 (pyhash p % 10000)
    age := "Unknown"
    sex := "Unknown"
    view := "PA"
    date := today
    pathologies := []
    filename := baseName p }

/-- `DataManager._generate_default_metadata`: for every discovered image it
assigns `self.metadata[str(img_path)] = {...}` into whatever `self.metadata`
already holds (`init`): an empty dict on the no-CSV path, but the partially
loaded row entries when it runs from `_load_metadata_from_csv`'s `except`
handler. -/
def generateDefaultMetadata (pyhash : String → Nat) (today : String)
    (images : List String) (init : List (String × Metadata)) :
    List (String × Metadata) :=
  images.foldl (fun md p => assocSet md p (defaultMetaFor pyhash today p)) init

/-- How the metadata-CSV read goes for one `load_dataset` call. -/
inductive CsvSource where
  /-- No `.csv` file exists under the metadata root: the source goes
  straight to `_generate_default_metadata`. -/
  | absent
  /-- The selected CSV (the source prefers a file whose name contains
  `Data_Entry`, else the first CSV found) reads completely into these
  rows. -/
  | rows (rows : List CsvRow)
  /-- Reading the selected CSV raises after these rows were fully
  processed (per-row `int()` failures are caught inside the loop; what
  escapes is e.g. a decode error fetching the next row, which happens
  between rows): the `except` handler keeps the entries those rows
  loaded and runs `_generate_default_metadata` on top of them. -/
  | failsAfter (rows : List CsvRow)
deriving DecidableEq

/-- The filesystem/environment a `load_dataset` call observes. -/
structure LoadInput where
  root : String
  /-- Every entry existing under `root` (as its full path string); `[]` when
  the root does not exist. -/
  files : List String
  /-- How the metadata-CSV read goes (see `CsvSource`). -/
  csv : CsvSource
  today : String
  pyhash : String → Nat
  /-- Annotations deserialized from `annotations/<stem>.json` for an image
  path; `[]` when the file is absent or unreadable. -/
  saved : String → List Ann

/-- `DataManager.load_dataset`. `_load_bbox_from_csv` is not modelled: every
annotation list it seeds for a discovered image is overwritten immediately
afterwards by `_load_existing_annotations`, which (re)assigns
`annotations[img]` for every discovered image, and no claim concerns the
keys it could leave for non-image entries. -/
def load_dataset (inp : LoadInput) : DataManager :=
  let images := discoverImages inp.files
  { images := images
    metadata :=
      match inp.csv with
      | .rows rows => loadMetadataFromCsv inp.root inp.files inp.today rows
      | .absent => generateDefaultMetadata inp.pyhash inp.today images []
      | .failsAfter rows =>
        generateDefaultMetadata inp.pyhash inp.today images
          (loadMetadataFromCsv inp.root inp.files inp.today rows)
    annotations := images.map (fun p => (p, inp.saved p)) }

/-! ## `filter_images` -/

/-- `self.metadata.get(image_path, {})` followed by the per-key `.get`
defaults the source then applies (`""` for text keys, `[]` for
`pathologies`, `"0"` for `age`). -/
def metaDefault : Metadata :=
  { patient_id := "", age := "0", sex := "", view := "", date := ""
    pathologies := [], filename := "" }

def getMetaView (dm : DataManager) (p : String) : Metadata :=
  (alookup dm.metadata p).getD metaDefault

/-- `self.annotations.get(image_path, [])` (`get_image_annotations`). -/
def getAnns (dm : DataManager) (p : String) : List Ann :=
  (alookup dm.annotations p).getD []

def pathologyOk (f : Filters) (md : Metadata) : Bool :=
  match f.pathology with
  | some s => if s ≠ "" ∧ s ≠ "Toutes" then md.pathologies.contains s else true
  | none => true

def sexOk (f : Filters) (md : Metadata) : Bool :=
  match f.sex with
  | some s => if s ≠ "" ∧ s ≠ "Tous" then pyUpper md.sex = pyUpper s else true
  | none => true

def viewOk (f : Filters) (md : Metadata) : Bool :=
  match f.view with
  | some s =>
    if s ≠ "" ∧ s ≠ "Toutes" then pyUpper (pyStrip md.view) = pyUpper (pyStrip s)
    else true
  | none => true

def dateMinOk (f : Filters) (md : Metadata) : Bool :=
  match f.date_min with
  | some d => if d ≠ "" then !(decide (md.date < d)) else true
  | none => true

def dateMaxOk (f : Filters) (md : Metadata) : Bool :=
  match f.date_max with
  | some d => if d ≠ "" then !(decide (d < md.date)) else true
  | none => true

def ageMinOk (f : Filters) (md : Metadata) : Bool :=
  match f.age_min with
  | some a =>
    if a ≠ 0 then
      match pyInt? (stripYChars md.age) with
      | some n => !(decide (n < a))
      | none => true
    else true
  | none => true

def ageMaxOk (f : Filters) (md : Metadata) : Bool :=
  match f.age_max with
  | some a =>
    if a ≠ 0 then
      match pyInt? (stripYChars md.age) with
      | some n => !(decide (a < n))
      | none => true
    else true
  | none => true

def hasAnnsOk (dm : DataManager) (f : Filters) (p : String) : Bool :=
  match f.has_annotations with
  | some b => decide ((getAnns dm p).length > 0) = b
  | none => true

/-- The `match` flag computed for one image inside `DataManager.filter_images`:
each criterion that is present (and truthy, and not its "all" sentinel) must
hold, and they all AND together. -/
def matchesFilters (dm : DataManager) (f : Filters) (p : String) : Bool :=
  let md := getMetaView dm p
  pathologyOk f md && sexOk f md && viewOk f md && dateMinOk f md
    && dateMaxOk f md && ageMinOk f md && ageMaxOk f md && hasAnnsOk dm f p

/-- `DataManager.filter_images`: the images (as path strings, in store
order) whose metadata passes every present criterion. -/
def filter_images (dm : DataManager) (f : Filters) : List String :=
  dm.images.filter (matchesFilters dm f)

/-! ## Co-occurrence matrix (`get_cooccurrence_data`) -/

def PATHOLOGY_ORDER : List String :=
  ["Atelectasis", "Cardiomegaly", "Effusion", "Infiltration", "Mass",
   "Nodule", "Pneumonia", "Pneumothorax", "Consolidation", "Edema",
   "Emphysema", "Fibrosis", "Pleural_Thickening", "Hernia"]

/-- First index of `p` in `l`: the dict `{p: i for i, p in enumerate(labels)}`
(over distinct labels both formulations agree). -/
def idxIn (l : List String) (p : String) : Option Nat :=
  match l with
  | [] => none
  | q :: r => if q = p then some 0 else (idxIn r p).map (· + 1)

def labelToIdx (p : String) : Option Nat := idxIn PATHOLOGY_ORDER p

/-- The pathology set the loop body computes for one image: the (set of the)
metadata pathologies; when that set is empty and `from_csv_only` is false,
the in-vocabulary pathologies named by the image's annotations instead.
Python's `set` is modelled by `List.dedup` (the matrix increments below are
insensitive to the iteration order, so any duplicate-free enumeration is a
faithful image of the set). -/
def effectivePathologies (dm : DataManager) (from_csv_only : Bool)
    (p : String) : List String :=
  let ps := (((alookup dm.metadata p).map Metadata.pathologies).getD []).dedup
  if ps.isEmpty && !from_csv_only then
    (((alookup dm.annotations p).getD []).filterMap Ann.pathology).filter
      (fun q => q ≠ "" && (labelToIdx q).isSome) |>.dedup
  else ps

/-- `matrix[i][j] += 1`, with the mutable nested list modelled as a function
of the two indices (materialized back to nested lists on return). -/
def bumpCell (m : Nat → Nat → Nat) (i j : Nat) : Nat → Nat → Nat :=
  fun a b => if a = i ∧ b = j then m a b + 1 else m a b

/-- The inner `for p2 in pathologies` loop at fixed row index `i1`. -/
def coocInner (m : Nat → Nat → Nat) (i1 : Nat) (ps : List String) :
    Nat → Nat → Nat :=
  ps.foldl
    (fun m p2 =>
      match labelToIdx p2 with
      | none => m
      | some i2 => bumpCell m i1 i2)
    m

/-- The outer `for p1 in pathologies` loop; `l` is the iteration list (always
the whole pathology set `ps`, kept separate so the fold can be reasoned
about). -/
def coocOuter (m : Nat → Nat → Nat) (l ps : List String) : Nat → Nat → Nat :=
  l.foldl
    (fun m p1 =>
      match labelToIdx p1 with
      | none => m
      | some i1 => coocInner m i1 ps)
    m

/-- Both nested loops for one image. -/
def coocStep (m : Nat → Nat → Nat) (ps : List String) : Nat → Nat → Nat :=
  coocOuter m ps ps

/-- The matrix (as a function of the two indices) after the loop over all
images. -/
def coocMatrixFun (dm : DataManager) (from_csv_only : Bool) : Nat → Nat → Nat :=
  dm.images.foldl
    (fun m p => coocStep m (effectivePathologies dm from_csv_only p))
    (fun _ _ => 0)

/-- `DataManager.get_cooccurrence_data`. -/
def get_cooccurrence_data (dm : DataManager) (from_csv_only : Bool) :
    List String × List (List Nat) :=
  let labels := PATHOLOGY_ORDER
  let n := labels.length
  let m := coocMatrixFun dm from_csv_only
  (labels, (List.range n).map (fun i => (List.range n).map (fun j => m i j)))

/-- `len([p for p in ps if label_to_idx.get(p) == i])`: how many entries of
`ps` carry vocabulary index `i`. -/
def cntIdx (ps : List String) (i : Nat) : Nat :=
  (ps.filter (fun p => labelToIdx p == some i)).length

/-! ## Annotation update / delete -/

/-- `DataManager.update_annotation`: bounds-checked in-place replacement
(the index is a Python `int`, hence `Int` and the explicit `0 <=` check). -/
def update_annotation (dm : DataManager) (image_path : String)
    (annotation_id : Int) (ann : Ann) : DataManager :=
  match alookup dm.annotations image_path with
  | some anns =>
    if 0 ≤ annotation_id ∧ annotation_id < anns.length then
      { dm with
        annotations :=
          assocSet dm.annotations image_path (anns.set annotation_id.toNat ann) }
    else dm
  | none => dm

/-- `DataManager.delete_annotation`: bounds-checked `del`. -/
def delete_annotation (dm : DataManager) (image_path : String)
    (annotation_id : Int) : DataManager :=
  match alookup dm.annotations image_path with
  | some anns =>
    if 0 ≤ annotation_id ∧ annotation_id < anns.length then
      { dm with
        annotations :=
          assocSet dm.annotations image_path (anns.eraseIdx annotation_id.toNat) }
    else dm
  | none => dm

/-! ## `get_reference_images_for_pathology` -/

/-- The per-annotation predicate of the source's two comprehensions:
`a.get("pathology") == pathology and (a.get("type") == "box" or
("x" in a and "width" in a))`. -/
def matchesPathology (pathology : String) (a : Ann) : Bool :=
  a.pathology == some pathology
    && (a.type == some "box" || (a.x.isSome && a.width.isSome))

/-- `if exclude_norm and _norm(img_path_str) == exclude_norm: continue` —
`exclude_norm` must be truthy (non-`None`, non-empty) and match. -/
def skipGuard (norm : String → String) (excludeNorm : Option String)
    (p : String) : Bool :=
  match excludeNorm with
  | some s => !(s == "") && norm p == s
  | none => false

/-- Phase (a): the scan over `self.annotations.items()`. Returns
`(earlyReturn, result, seen)`; `earlyReturn` is the in-loop
`if len(result) >= limit: return result`. -/
def scanStore (norm : String → String) (pathology : String) (limit : Int)
    (excludeNorm : Option String) :
    List (String × List Ann) → List (String × List Ann) → List String →
      Bool × List (String × List Ann) × List String
  | [], result, seen => (false, result, seen)
  | (p, anns) :: rest, result, seen =>
    if skipGuard norm excludeNorm p then
      scanStore norm pathology limit excludeNorm rest result seen
    else
      let forPath := anns.filter (matchesPathology pathology)
      let hit := !forPath.isEmpty && !(seen.contains (norm p))
      let result' := if hit then result ++ [(p, forPath)] else result
      let seen' := if hit then seen ++ [norm p] else seen
      if limit ≤ (result'.length : Int) then (true, result', seen')
      else scanStore norm pathology limit excludeNorm rest result' seen'

/-- Phase (b): the loop over the bundled example file's entries. -/
def refExamplesLoop (norm : String → String) (images : List String)
    (limit : Int) :
    List RefExample → List (String × List Ann) → List String →
      List (String × List Ann) × List String
  | [], result, seen => (result, seen)
  | ex :: rest, result, seen =>
    if limit ≤ (result.length : Int) then (result, seen)
    else if ex.image_stem = "" ∨ ex.anns = [] then
      refExamplesLoop norm images limit rest result seen
    else
      match images.find?
          (fun img => stemOf img == ex.image_stem && !(seen.contains (norm img))) with
      | some img =>
        refExamplesLoop norm images limit rest (result ++ [(img, ex.anns)])
          (seen ++ [norm img])
      | none => refExamplesLoop norm images limit rest result seen

/-- Phase (c): the self-reference fallback (`exclude_path` is already known
truthy; `epNorm = norm exclude_path`). Returns the appended pair, if any. -/
def selfFallback (norm : String → String) (dm : DataManager)
    (pathology : String) (ep epNorm : String) : List (String × List Ann) :=
  let a1 := (alookup dm.annotations ep).getD []
  let a2 := if a1.isEmpty then (alookup dm.annotations epNorm).getD [] else a1
  let found :=
    if a2.isEmpty ∧ epNorm ≠ "" then
      match dm.annotations.find? (fun kv => norm kv.1 == epNorm) with
      | some kv => (kv.1, kv.2)
      | none => (ep, a2)
    else (ep, a2)
  if found.2.isEmpty then []
  else
    let forPath := found.2.filter (matchesPathology pathology)
    if forPath.isEmpty then [] else [(found.1, forPath)]

/-- `DataManager.get_reference_images_for_pathology`. `norm` models
`str(Path(·).resolve())`; `refExamples` models the bundled
`pathology_references/<pathology>.json`: `none` when the file does not
exist, `some examples` otherwise (`some []` when it exists but is
unreadable, matching the source's `examples = []`). -/
def get_reference_images_for_pathology (norm : String → String)
    (refExamples : Option (List RefExample)) (dm : DataManager)
    (pathology : String) (limit : Int) (exclude_path : Option String) :
    List (String × List Ann) :=
  let excludeNorm : Option String :=
    match exclude_path with
    | some s => if s = "" then none else some (norm s)
    | none => none
  match scanStore norm pathology limit excludeNorm dm.annotations [] [] with
  | (true, result, _) => result
  | (false, result0, seen0) =>
    let afterB :=
      match refExamples with
      | none => (result0, seen0)
      | some exs =>
        if dm.images.isEmpty then (result0, seen0)
        else refExamplesLoop norm dm.images limit exs result0 seen0
    let result1 := afterB.1
    if result1.isEmpty then
      match exclude_path with
      | none => result1
      | some ep =>
        if ep = "" then result1
        else result1 ++ selfFallback norm dm pathology ep (norm ep)
    else result1

/-! ## JSON export and import -/

/-- The QColor-to-dict flattening of `_serialize_annotations_for_export`
(applied only to values with a `red` attribute, i.e. live QColor objects). -/
def flattenColor : ColorV → ColorV
  | .qcolor r g b a => .cdict r g b a
  | .cdict r g b a => .cdict r g b a

/-- `ann.copy()` with the colour flattened. -/
def serializeAnn (a : Ann) : Ann :=
  { a with color := a.color.map flattenColor }

/-- `DataManager._serialize_annotations_for_export`. -/
def serializeAnns (l : List Ann) : List Ann := l.map serializeAnn

/-- One value of the exported JSON mapping. -/
structure ExportEntry where
  metadata : Option Metadata
  anns : List Ann
deriving DecidableEq

/-- `DataManager._export_json` (hence `export_annotations(·, "JSON")`): the
mapping written to the file — every image with a non-empty annotation list,
with its metadata snapshot and serialized annotations. -/
def export_json (dm : DataManager) : List (String × ExportEntry) :=
  dm.annotations.filterMap
    (fun kv =>
      if kv.2.isEmpty then none
      else some (kv.1, ⟨alookup dm.metadata kv.1, serializeAnns kv.2⟩))

/-- Modelled from the spec: `import_annotations` is called by the test suite
and by the Qt shell (`main_qt.py`) but is defined nowhere in the repository
sources. Spec 4.5: "`import(path)`: detects format by extension (`.json` or
`.csv`); JSON import replaces/merges the annotation sequence per image key
found". For JSON data this replaces the store's annotation sequence for
every image key present in the imported mapping. -/
def import_annotations (dm : DataManager) (data : List (String × ExportEntry)) :
    DataManager :=
  { dm with
    annotations :=
      data.foldl (fun a kv => assocSet a kv.1 kv.2.anns) dm.annotations }

/-- The `(pathology, x, y, width, height, author, confidence)` tuple of an
annotation, as named by the round-trip property. -/
def tuple7 (a : Ann) :
    Option String × Option Rat × Option Rat × Option Rat × Option Rat ×
      Option String × Option Rat :=
  (a.pathology, a.x, a.y, a.width, a.height, a.author, a.confidence)

/-! ## Concrete inputs used by witnesses and counterexamples -/

/-- A box annotation record with every field present. -/
def annW : Ann :=
  { type := some "box", x := some 10, y := some 20, width := some 30,
    height := some 40, pathology := some "Nodule", author := some "tester",
    date := some "2025-01-01", confidence := some 1, color := none }

def dmEmpty : DataManager := ⟨[], [], []⟩

/-- A two-image store, one image annotated. -/
def dmW : DataManager :=
  { images := ["r/a.png", "r/b.png"]
    metadata :=
      [("r/a.png", { patient_id := "P001", age := "45", sex := "M", view := "PA",
                     date := "2000-01-02",
                     pathologies := ["Atelectasis", "Effusion"],
                     filename := "a.png" })]
    annotations := [("r/a.png", [annW]), ("r/b.png", [])] }

/-- A dataset root holding one image and a CSV with no rows. -/
def c2Input : LoadInput :=
  { root := "r", files := ["r/a.png"], csv := CsvSource.rows [],
    today := "2025-10-12", pyhash := fun _ => 0, saved := fun _ => [] }

/-- The same root with no CSV at all. -/
def c2InputNoCsv : LoadInput :=
  { root := "r", files := ["r/a.png"], csv := CsvSource.absent,
    today := "2025-10-12", pyhash := fun _ => 0, saved := fun _ => [] }

/-- A CSV row naming `x.Png` — an entry that exists under the root but that
discovery misses (mixed-case extension). -/
def c2RowX : CsvRow :=
  { imageIndex := some "x.Png", filename := none, findingLabels := none,
    findingLabel := none, patientId := some "P009", age := some "50",
    sex := some "F", viewPos := some "AP", followUp := some "1" }

/-- A root whose CSV read raises after one row that resolved to the
undiscovered entry `r/x.Png`. -/
def c2InputFails : LoadInput :=
  { root := "r", files := ["r/a.png", "r/x.Png"],
    csv := CsvSource.failsAfter [c2RowX], today := "2025-10-12",
    pyhash := fun _ => 0, saved := fun _ => [] }

/-- A CSV row whose finding-label field is `"No Finding|"`. -/
def noFindingPipeRow : CsvRow :=
  { imageIndex := none, filename := none, findingLabels := some "No Finding|",
    findingLabel := none, patientId := none, age := none, sex := none,
    viewPos := none, followUp := none }

/-- A CSV row with no finding-label data at all. -/
def emptyRow : CsvRow :=
  { imageIndex := none, filename := none, findingLabels := none,
    findingLabel := none, patientId := none, age := none, sex := none,
    viewPos := none, followUp := none }

/-! ## Helper lemmas -/

theorem alookup_mem {α : Type} {l : List (String × α)} {k : String} {v : α}
    (h : alookup l k = some v) : (k, v) ∈ l := by
  induction l with
  | nil => simp [alookup] at h
  | cons hd t ih =>
    rcases hd with ⟨k1, v1⟩
    by_cases hk : k1 = k
    · subst hk
      simp only [alookup, if_pos rfl] at h
      cases h
      exact List.mem_cons_self _ _
    · simp only [alookup, if_neg hk] at h
      exact List.mem_cons_of_mem _ (ih h)

/-- `pyStrip` as `rdropWhile ∘ dropWhile` on the character list. -/
theorem pyStrip_toList (s : String) :
    pyStrip s =
      String.mk (List.rdropWhile Char.isWhitespace
        (s.toList.dropWhile Char.isWhitespace)) := rfl

theorem stripList_idem (l : List Char) :
    List.rdropWhile Char.isWhitespace
        ((List.rdropWhile Char.isWhitespace
          (l.dropWhile Char.isWhitespace)).dropWhile Char.isWhitespace)
      = List.rdropWhile Char.isWhitespace (l.dropWhile Char.isWhitespace) := by
  have hMfix : (l.dropWhile Char.isWhitespace).dropWhile Char.isWhitespace
      = l.dropWhile Char.isWhitespace := List.dropWhile_idempotent _ _
  rcases hpre : List.rdropWhile Char.isWhitespace (l.dropWhile Char.isWhitespace)
      with _ | ⟨a, r⟩
  · simp
  · have hp : List.IsPrefix (a :: r) (l.dropWhile Char.isWhitespace) := by
      rw [← hpre]
      exact List.rdropWhile_prefix _ _
    rcases hp with ⟨t, ht⟩
    have h2 : a :: (r ++ t) = l.dropWhile Char.isWhitespace := by
      simpa using ht
    have ha : Char.isWhitespace a = false := by
      by_contra hcontra
      have haw : Char.isWhitespace a = true := by
        simpa using hcontra
      have h3 : (a :: (r ++ t)).dropWhile Char.isWhitespace = a :: (r ++ t) := by
        rw [h2, hMfix]
      rw [List.dropWhile_cons, if_pos haw] at h3
      have h4 := congrArg List.length h3
      have h5 : ((r ++ t).dropWhile Char.isWhitespace).length ≤ (r ++ t).length :=
        (List.dropWhile_suffix Char.isWhitespace).sublist.length_le
      simp only [List.length_cons] at h4
      omega
    have hfix2 : (a :: r).dropWhile Char.isWhitespace = a :: r := by
      rw [List.dropWhile_cons, if_neg (by simp [ha])]
    have h6 := List.rdropWhile_idempotent Char.isWhitespace
      (l.dropWhile Char.isWhitespace)
    rw [hpre] at h6
    rw [hfix2, h6]

theorem pyStrip_idem (s : String) : pyStrip (pyStrip s) = pyStrip s := by
  rw [pyStrip_toList, pyStrip_toList]
  have hdata : (String.mk (List.rdropWhile Char.isWhitespace
      (s.toList.dropWhile Char.isWhitespace))).toList =
      List.rdropWhile Char.isWhitespace
        (s.toList.dropWhile Char.isWhitespace) := rfl
  rw [hdata, stripList_idem]

theorem splitChars_no_sep (sep : Char) (l : List Char) (h : sep ∉ l) :
    splitChars sep l = [l] := by
  induction l with
  | nil => rfl
  | cons c r ih =>
    have hc : c ≠ sep := fun hcc => h (hcc ▸ List.mem_cons_self c r)
    have hr : sep ∉ r := fun hrr => h (List.mem_cons_of_mem c hrr)
    simp [splitChars, ih hr, hc]

/-! ## C8: empty criteria -/

/-- C8: for every loaded store, `filter_images` called with an empty criteria
dict returns every loaded image, as a path string, in the store's original
discovery order. -/
theorem filter_images_empty_returns_all (dm : DataManager) :
    filter_images dm emptyFilters = dm.images := by
  unfold filter_images
  exact List.filter_eq_self.mpr (fun p _ => rfl)

/-! ## C10: "Toutes"/"Tous" sentinels -/

/-- C10: `filter_images` treats the sentinel values `"Toutes"` (pathology and
view keys) and `"Tous"` (sex key) exactly like an absent criterion, whatever
the other criteria are. -/
theorem filter_images_sentinels (dm : DataManager) (f : Filters) :
    filter_images dm { f with pathology := some "Toutes" }
        = filter_images dm { f with pathology := none }
      ∧ filter_images dm { f with view := some "Toutes" }
        = filter_images dm { f with view := none }
      ∧ filter_images dm { f with sex := some "Tous" }
        = filter_images dm { f with sex := none } := by
  refine ⟨?_, ?_, ?_⟩ <;>
    · unfold filter_images
      refine List.filter_congr ?_
      intro p _
      simp [matchesFilters, pathologyOk, sexOk, viewOk, dateMinOk, dateMaxOk,
        ageMinOk, ageMaxOk, hasAnnsOk]

/-! ## C5: pathology parsing -/

/-- C5 counterexample: the field `"No Finding|"` parses to the one-element
list `["No Finding"]`, which the claim says can never happen. -/
theorem parse_pathologies_counterexample :
    parse_pathologies noFindingPipeRow = ["No Finding"] := rfl

/-- C5 (amended): parsing never returns empty tokens; a field whose trimmed
value is empty or exactly `"No Finding"` parses to `[]`; and the result can
only be the one-element list `["No Finding"]` when the trimmed field
contains a `'|'` separator. -/
theorem parse_pathologies_amended (row : CsvRow) :
    (∀ s ∈ parse_pathologies row, s ≠ "")
      ∧ (pyStrip (findingField row) = "" ∨ pyStrip (findingField row) = "No Finding" →
          parse_pathologies row = [])
      ∧ ('|' ∉ (pyStrip (findingField row)).toList →
          parse_pathologies row ≠ ["No Finding"]) := by
  refine ⟨?_, ?_, ?_⟩
  · intro s hs
    unfold parse_pathologies at hs
    split at hs
    · simp at hs
    · have := List.of_mem_filter hs
      simpa using this
  · intro h
    unfold parse_pathologies
    rw [if_pos h]
  · intro hnp hres
    unfold parse_pathologies at hres
    split at hres
    · simp at hres
    · rename_i hguard
      push_neg at hguard
      rw [pySplitPipe, splitChars_no_sep '|' _ hnp] at hres
      have hmk : String.mk (pyStrip (findingField row)).toList
          = pyStrip (findingField row) := rfl
      simp only [List.map_cons, List.map_nil, hmk] at hres
      rw [pyStrip_idem] at hres
      rcases hcase : decide (pyStrip (findingField row) = "") with _ | _
      · have hne : pyStrip (findingField row) ≠ "" := by
          simpa using hcase
        rw [List.filter_cons, if_pos (by simpa using hne)] at hres
        simp only [List.filter_nil] at hres
        have : pyStrip (findingField row) = "No Finding" := by
          injection hres
        exact hguard.2 this
      · have heq : pyStrip (findingField row) = "" := by simpa using hcase
        exact hguard.1 heq

/-! ## C6: dataset discovery -/

/-- C4: for out-of-range indices (including a path with no sequence at all)
`update_annotation` and `delete_annotation` are silent no-ops leaving the
entire store unchanged; for an in-range index they replace (resp. remove)
exactly the annotation at that position and leave every other entry's
sequence untouched. -/
theorem update_delete_bounds (dm : DataManager) (path : String) (idx : Int)
    (a : Ann) :
    ((∀ anns, alookup dm.annotations path = some anns →
        ¬(0 ≤ idx ∧ idx < (anns.length : Int))) →
      update_annotation dm path idx a = dm
        ∧ delete_annotation dm path idx = dm)
    ∧ (∀ anns, alookup dm.annotations path = some anns →
        0 ≤ idx → idx < (anns.length : Int) →
        alookup ( update_annotation dm path idx a).annotations path
            = some (anns.set idx.toNat a)
          ∧ alookup ( delete_annotation dm path idx).annotations path
            = some (anns.eraseIdx idx.toNat)
          ∧ (∀ q, q ≠ path →
              alookup ( update_annotation dm path idx a).annotations q
                  = alookup dm.annotations q
                ∧ alookup ( delete_annotation dm path idx).annotations q
                  = alookup dm.annotations q)) := by
  constructor
  · intro h
    unfold update_annotation delete_annotation
    cases hl : alookup dm.annotations path with
    | none => exact ⟨rfl, rfl⟩
    | some anns =>
      have hnr := h anns hl
      simp [hnr]
  · intro anns hl h0 hlt
    refine ⟨?_, ?_, ?_⟩
    · unfold update_annotation
      rw [hl]
      simp only [if_pos (And.intro h0 hlt)]
      exact alookup_assocSet_self _ _ _
    · unfold delete_annotation
      rw [hl]
      simp only [if_pos (And.intro h0 hlt)]
      exact alookup_assocSet_self _ _ _
    · intro q hq
      constructor
      · unfold update_annotation
        rw [hl]
        simp only [if_pos (And.intro h0 hlt)]
        exact alookup_assocSet_ne _ _ _ _ hq
      · unfold delete_annotation
        rw [hl]
        simp only [if_pos (And.intro h0 hlt)]
        exact alookup_assocSet_ne _ _ _ _ hq

/-- C4 witness: on the concrete stores, an unknown path is a no-op and an
in-range index rewrites position 0. -/
theorem update_delete_bounds_witness :
    ( update_annotation dmEmpty "r/a.png" 0 annW = dmEmpty
        ∧ delete_annotation dmEmpty "r/a.png" 0 = dmEmpty)
      ∧ alookup ( update_annotation dmW "r/a.png" 0 annW).annotations "r/a.png"
          = some [annW] :=
  ⟨(update_delete_bounds dmEmpty "r/a.png" 0 annW).1 (fun _ h => nomatch h),
    by
      have h := ((update_delete_bounds dmW "r/a.png" 0 annW).2 [annW] rfl
        (by decide) (by decide)).1
      simpa using h⟩

/-! ## C2: one metadata entry per image -/

theorem mem_assocSet {α : Type} {l : List (String × α)} {k q : String}
    {v w : α} (h : (q, w) ∈ assocSet l k v) : q = k ∨ (q, w) ∈ l := by
  induction l with
  | nil =>
    simp only [assocSet, List.mem_singleton] at h
    exact Or.inl (congrArg Prod.fst h)
  | cons hd t ih =>
    by_cases hk : hd.1 = k
    · rw [assocSet, if_pos hk] at h
      rcases List.mem_cons.mp h with h1 | h1
      · exact Or.inl (congrArg Prod.fst h1)
      · exact Or.inr (List.mem_cons_of_mem _ h1)
    · rw [assocSet, if_neg hk] at h
      rcases List.mem_cons.mp h with h1 | h1
      · exact Or.inr (h1 ▸ List.mem_cons_self _ _)
      · rcases ih h1 with h2 | h2
        · exact Or.inl h2
        · exact Or.inr (List.mem_cons_of_mem _ h2)

theorem loadMetaFold_keys (root : String) (files : List String) (today : String)
    (rows : List CsvRow) :
    ∀ (init : List (String × Metadata)) (k : String) (v : Metadata),
      (k, v) ∈ rows.foldl
          (fun md row =>
            if imageName row = "" then md
            else
              match resolveImage root files (imageName row) with
              | none => md
              | some p => assocSet md p (metadataOfRow today row (imageName row)))
          init →
      (k, v) ∈ init
        ∨ ∃ row ∈ rows, resolveImage root files (imageName row) = some k := by
  induction rows with
  | nil =>
    intro init k v h
    exact Or.inl h
  | cons row t ih =>
    intro init k v h
    rw [List.foldl_cons] at h
    rcases ih _ k v h with h1 | h1
    · by_cases hname : imageName row = ""
      · rw [if_pos hname] at h1
        exact Or.inl h1
      · rw [if_neg hname] at h1
        cases hres : resolveImage root files (imageName row) with
        | none =>
          rw [hres] at h1
          exact Or.inl h1
        | some p =>
          rw [hres] at h1
          rcases mem_assocSet h1 with h2 | h2
          · subst h2
            exact Or.inr ⟨row, List.mem_cons_self _ _, hres⟩
          · exact Or.inl h2
    · rcases h1 with ⟨row', hrow', hres'⟩
      exact Or.inr ⟨row', List.mem_cons_of_mem _ hrow', hres'⟩

theorem discoverImages_nodup (files : List String) :
    (discoverImages files).Nodup :=
  ((List.perm_insertionSort _ _).nodup_iff).mpr (List.nodup_dedup _)

/-- `d[k] = v` on a dict without the key appends a fresh binding. -/
theorem assocSet_of_not_mem {α : Type} {l : List (String × α)} {k : String}
    (v : α) (hk : k ∉ l.map Prod.fst) : assocSet l k v = l ++ [(k, v)] := by
  induction l with
  | nil => rfl
  | cons hd t ih =>
    rcases hd with ⟨k1, v1⟩
    have hne : k1 ≠ k := by
      intro he
      exact hk (by rw [List.map_cons]; exact he ▸ List.mem_cons_self _ _)
    rw [assocSet, if_neg hne,
      ih (fun hm => hk (by rw [List.map_cons]; exact List.mem_cons_of_mem _ hm))]
    rfl

theorem defaultsFold_lookup_not_mem (f : String → Metadata)
    (images : List String) (init : List (String × Metadata)) (p : String)
    (hp : p ∉ images) :
    alookup (images.foldl (fun md q => assocSet md q (f q)) init) p
      = alookup init p := by
  induction images generalizing init with
  | nil => rfl
  | cons q t ih =>
    rw [List.foldl_cons, ih _ (fun hm => hp (List.mem_cons_of_mem _ hm))]
    exact alookup_assocSet_ne _ _ _ _
      (fun he => hp (he ▸ List.mem_cons_self _ _))

theorem defaultsFold_lookup_mem (f : String → Metadata)
    (images : List String) :
    images.Nodup → ∀ (init : List (String × Metadata)) (p : String),
      p ∈ images →
      alookup (images.foldl (fun md q => assocSet md q (f q)) init) p
        = some (f p) := by
  induction images with
  | nil =>
    intro _ init p hp
    cases hp
  | cons q t ih =>
    intro hnd init p hp
    rw [List.foldl_cons]
    rcases List.mem_cons.mp hp with h1 | h1
    · subst h1
      rw [defaultsFold_lookup_not_mem f t _ p (List.nodup_cons.mp hnd).1]
      exact alookup_assocSet_self _ _ _
    · exact ih (List.nodup_cons.mp hnd).2 _ p h1

theorem defaultsFold_keys (f : String → Metadata) (images : List String) :
    ∀ (init : List (String × Metadata)) (k : String) (v : Metadata),
      (k, v) ∈ images.foldl (fun md q => assocSet md q (f q)) init →
      k ∈ images ∨ (k, v) ∈ init := by
  induction images with
  | nil =>
    intro init k v h
    exact Or.inr h
  | cons q t ih =>
    intro init k v h
    rw [List.foldl_cons] at h
    rcases ih _ k v h with h1 | h1
    · exact Or.inl (List.mem_cons_of_mem _ h1)
    · rcases mem_assocSet h1 with h2 | h2
      · exact Or.inl (h2 ▸ List.mem_cons_self _ _)
      · exact Or.inr h2

theorem defaultsFold_keys_eq (f : String → Metadata) (images : List String) :
    images.Nodup → ∀ (init : List (String × Metadata)),
      (∀ p ∈ images, p ∉ init.map Prod.fst) →
      (images.foldl (fun md q => assocSet md q (f q)) init).map Prod.fst
        = init.map Prod.fst ++ images := by
  induction images with
  | nil =>
    intro _ init _
    simp
  | cons q t ih =>
    intro hnd init hdisj
    rw [List.foldl_cons,
      assocSet_of_not_mem (f q) (hdisj q (List.mem_cons_self _ _))]
    have hdisj2 : ∀ p ∈ t, p ∉ (init ++ [(q, f q)]).map Prod.fst := by
      intro p hp hmem
      rw [List.map_append] at hmem
      rcases List.mem_append.mp hmem with h1 | h1
      · exact hdisj p (List.mem_cons_of_mem _ hp) h1
      · have hpq : p = q := by
          simpa using h1
        exact (List.nodup_cons.mp hnd).1 (hpq ▸ hp)
    rw [ih (List.nodup_cons.mp hnd).2 _ hdisj2, List.map_append]
    simp

/-- C2 counterexample: a root holding one image and a CSV with no rows
loads one image but zero metadata entries, violating
`len(metadata) == len(images)`. -/
theorem load_dataset_metadata_counterexample :
    (load_dataset c2Input).images.length = 1
      ∧ (load_dataset c2Input).metadata.length = 0 := by
  constructor <;> rfl

/-- C2 (amended): with no CSV present, every discovered image gets exactly
one synthesized metadata entry, so `len(metadata) == len(images)`; when a
CSV is selected and reads fully, metadata entries exist only for images
resolved from its rows, so images the CSV does not cover have none; when
the CSV read raises mid-file, every discovered image still ends up with
exactly one (synthesized) entry, but the entries the already-processed rows
loaded persist for row-resolved keys outside the discovered images, so
metadata can hold keys beyond the images. -/
theorem load_dataset_metadata_amended (inp : LoadInput) :
    (inp.csv = CsvSource.absent →
      (load_dataset inp).metadata.map Prod.fst = (load_dataset inp).images
        ∧ (load_dataset inp).metadata.length = (load_dataset inp).images.length)
    ∧ (∀ rows, inp.csv = CsvSource.rows rows →
        ∀ k v, (k, v) ∈ (load_dataset inp).metadata →
          ∃ row ∈ rows, resolveImage inp.root inp.files (imageName row) = some k)
    ∧ (∀ rows, inp.csv = CsvSource.failsAfter rows →
        (∀ p ∈ (load_dataset inp).images,
          alookup (load_dataset inp).metadata p
            = some (defaultMetaFor inp.pyhash inp.today p))
        ∧ (∀ k v, (k, v) ∈ (load_dataset inp).metadata →
            k ∈ (load_dataset inp).images
              ∨ ∃ row ∈ rows,
                  resolveImage inp.root inp.files (imageName row) = some k))
    := by
  refine ⟨?_, ?_, ?_⟩
  · intro hc
    unfold load_dataset
    rw [hc]
    have hkeys := defaultsFold_keys_eq (defaultMetaFor inp.pyhash inp.today)
      (discoverImages inp.files) (discoverImages_nodup inp.files) []
      (by simp)
    constructor
    · simpa [generateDefaultMetadata] using hkeys
    · have h1 : (generateDefaultMetadata inp.pyhash inp.today
          (discoverImages inp.files) []).map Prod.fst
          = discoverImages inp.files := by
        simpa [generateDefaultMetadata] using hkeys
      calc (generateDefaultMetadata inp.pyhash inp.today
              (discoverImages inp.files) []).length
          = ((generateDefaultMetadata inp.pyhash inp.today
              (discoverImages inp.files) []).map Prod.fst).length :=
            (List.length_map _ _).symm
        _ = (discoverImages inp.files).length := by rw [h1]
  · intro rows hc k v hmem
    unfold load_dataset at hmem
    rw [hc] at hmem
    simp only [] at hmem
    unfold loadMetadataFromCsv at hmem
    rcases loadMetaFold_keys inp.root inp.files inp.today rows [] k v hmem
        with h1 | h1
    · simp at h1
    · exact h1
  · intro rows hc
    unfold load_dataset
    rw [hc]
    constructor
    · intro p hp
      exact defaultsFold_lookup_mem (defaultMetaFor inp.pyhash inp.today)
        (discoverImages inp.files) (discoverImages_nodup inp.files) _ p hp
    · intro k v hmem
      rcases defaultsFold_keys (defaultMetaFor inp.pyhash inp.today)
          (discoverImages inp.files) _ k v hmem with h1 | h1
      · exact Or.inl h1
      · right
        unfold loadMetadataFromCsv at h1
        rcases loadMetaFold_keys inp.root inp.files inp.today rows [] k v h1
            with h2 | h2
        · simp at h2
        · exact h2

/-- C2 witness: the no-CSV branch at a concrete root, and the mid-file
failure branch at a root where one processed row resolved to an entry
discovery missed. -/
theorem load_dataset_metadata_amended_witness :
    ((load_dataset c2InputNoCsv).metadata.map Prod.fst
        = (load_dataset c2InputNoCsv).images
      ∧ (load_dataset c2InputNoCsv).metadata.length
        = (load_dataset c2InputNoCsv).images.length)
    ∧ alookup (load_dataset c2InputFails).metadata "r/a.png"
        = some (defaultMetaFor c2InputFails.pyhash c2InputFails.today
            "r/a.png") :=
  ⟨(load_dataset_metadata_amended c2InputNoCsv).1 rfl,
    ((load_dataset_metadata_amended c2InputFails).2.2 [c2RowX] rfl).1
      "r/a.png" (by decide)⟩

/-! ## C1: JSON export → import round trip -/

theorem isEmpty_false_of_ne_nil {α : Type} {l : List α} (h : l ≠ []) :
    l.isEmpty = false := by
  cases l with
  | nil => cases h rfl
  | cons a t => rfl

theorem export_json_keys_sublist (dm : DataManager) :
    List.Sublist ((export_json dm).map Prod.fst) (dm.annotations.map Prod.fst)
    := by
  unfold export_json
  generalize dm.annotations = l
  induction l with
  | nil => simp
  | cons hd t ih =>
    rw [List.filterMap_cons]
    by_cases he : hd.2.isEmpty = true
    · rw [if_pos he, List.map_cons]
      exact List.Sublist.cons _ ih
    · rw [if_neg he, List.map_cons, List.map_cons]
      exact List.Sublist.cons₂ _ ih

theorem mem_export_json (dm : DataManager) (p : String) (anns : List Ann)
    (hp : alookup dm.annotations p = some anns) (hne : anns ≠ []) :
    (p, (⟨alookup dm.metadata p, serializeAnns anns⟩ : ExportEntry))
      ∈ export_json dm := by
  unfold export_json
  refine List.mem_filterMap.mpr ⟨(p, anns), alookup_mem hp, ?_⟩
  rw [if_neg (by rw [isEmpty_false_of_ne_nil hne]; exact Bool.false_ne_true)]

theorem alookup_foldl_assocSet_not_mem (data : List (String × ExportEntry))
    (init : List (String × List Ann)) (k : String)
    (hk : k ∉ data.map Prod.fst) :
    alookup (data.foldl (fun a kv => assocSet a kv.1 kv.2.anns) init) k
      = alookup init k := by
  induction data generalizing init with
  | nil => rfl
  | cons hd t ih =>
    rw [List.foldl_cons]
    have hne : k ≠ hd.1 := by
      intro he
      exact hk (by rw [List.map_cons]; exact he ▸ List.mem_cons_self _ _)
    rw [ih _ (fun hmem => hk (by rw [List.map_cons]; exact List.mem_cons_of_mem _ hmem))]
    exact alookup_assocSet_ne _ _ _ _ hne

theorem alookup_foldl_assocSet_mem (data : List (String × ExportEntry))
    (init : List (String × List Ann)) (k : String) (e : ExportEntry)
    (hnd : (data.map Prod.fst).Nodup) (hmem : (k, e) ∈ data) :
    alookup (data.foldl (fun a kv => assocSet a kv.1 kv.2.anns) init) k
      = some e.anns := by
  induction data generalizing init with
  | nil => cases hmem
  | cons hd t ih =>
    rw [List.foldl_cons]
    rw [List.map_cons, List.nodup_cons] at hnd
    rcases List.mem_cons.mp hmem with h1 | h1
    · subst h1
      rw [alookup_foldl_assocSet_not_mem t _ k hnd.1]
      exact alookup_assocSet_self _ _ _
    · have hkmem : k ∈ t.map Prod.fst := List.mem_map.mpr ⟨(k, e), h1, rfl⟩
      exact ih _ hnd.2 h1

/-- C1: for a store loaded from a dataset (so its annotation dict has
distinct keys), exporting with `export_annotations(file, "JSON")` and
importing that file into a fresh store reproduces, for every image with at
least one annotation, exactly the exported annotation sequence, whose
`(pathology, x, y, width, height, author, confidence)` tuples equal those
of the original sequence. -/
theorem export_import_json_round_trip (dm dm2 : DataManager) (p : String)
    (anns : List Ann)
    (hkeys : (dm.annotations.map Prod.fst).Nodup)
    (hp : alookup dm.annotations p = some anns) (hne : anns ≠ []) :
    alookup ( import_annotations dm2 (export_json dm)).annotations p
        = some (serializeAnns anns)
      ∧ (serializeAnns anns).map tuple7 = anns.map tuple7 := by
  constructor
  · unfold import_annotations
    have hnd : ((export_json dm).map Prod.fst).Nodup :=
      (export_json_keys_sublist dm).nodup hkeys
    exact alookup_foldl_assocSet_mem _ _ _ _ hnd (mem_export_json dm p anns hp hne)
  · show (anns.map serializeAnn).map tuple7 = anns.map tuple7
    rw [List.map_map]
    rfl

/-- C1 witness: the round trip at a concrete one-image store. -/
theorem export_import_json_round_trip_witness :
    alookup ( import_annotations dmEmpty (export_json dmW)).annotations "r/a.png"
        = some (serializeAnns [annW])
      ∧ (serializeAnns [annW]).map tuple7 = [annW].map tuple7 :=
  export_import_json_round_trip dmW dmEmpty "r/a.png" [annW] (by decide) rfl
    (by decide)

/-! ## C7: self-reference fallback -/

theorem scanStore_no_hit (norm : String → String) (pathology : String)
    (limit : Int) (excludeNorm : Option String)
    (items : List (String × List Ann)) (seen : List String)
    (hlim : 0 < limit)
    (h : ∀ kv ∈ items,
      skipGuard norm excludeNorm kv.1 = true
        ∨ kv.2.filter (matchesPathology pathology) = []) :
    scanStore norm pathology limit excludeNorm items [] seen
      = (false, [], seen) := by
  induction items generalizing seen with
  | nil => rfl
  | cons hd t ih =>
    rcases hd with ⟨p, anns⟩
    unfold scanStore
    by_cases hskip : skipGuard norm excludeNorm p = true
    · rw [if_pos hskip]
      exact ih seen (fun kv hkv => h kv (List.mem_cons_of_mem _ hkv))
    · rw [if_neg hskip]
      have hfp : anns.filter (matchesPathology pathology) = [] := by
        rcases h (p, anns) (List.mem_cons_self _ _) with h1 | h1
        · exact absurd h1 hskip
        · exact h1
      simp only [hfp, List.isEmpty_nil, Bool.not_true, Bool.false_and,
        if_neg, Bool.false_eq_true, if_false]
      rw [if_neg (by simp only [List.length_nil, Nat.cast_zero]; omega)]
      exact ih seen (fun kv hkv => h kv (List.mem_cons_of_mem _ hkv))

theorem refExamplesLoop_no_hit (norm : String → String) (images : List String)
    (limit : Int) (exs : List RefExample) (hlim : 0 < limit)
    (h : ∀ ex ∈ exs,
      ex.image_stem = "" ∨ ex.anns = [] ∨
        images.find? (fun img => stemOf img == ex.image_stem
          && !(([] : List String).contains (norm img))) = none) :
    refExamplesLoop norm images limit exs [] [] = ([], []) := by
  induction exs with
  | nil => rfl
  | cons ex t ih =>
    unfold refExamplesLoop
    rw [if_neg (by simp only [List.length_nil, Nat.cast_zero]; omega)]
    by_cases hguard : ex.image_stem = "" ∨ ex.anns = []
    · rw [if_pos hguard]
      exact ih (fun e he => h e (List.mem_cons_of_mem _ he))
    · rw [if_neg hguard]
      rcases h ex (List.mem_cons_self _ _) with h1 | h1 | h1
      · exact absurd (Or.inl h1) hguard
      · exact absurd (Or.inr h1) hguard
      · rw [h1]
        exact ih (fun e he => h e (List.mem_cons_of_mem _ he))

/-- C7: when no other image in the store has an annotation of the pathology
and the bundled example file yields no match, but the excluded image itself
has matching annotations, `get_reference_images_for_pathology` returns
exactly that excluded image paired with its own matching annotations — in
particular the result is not empty. -/
theorem reference_self_fallback (norm : String → String)
    (refExamples : Option (List RefExample)) (dm : DataManager)
    (pathology excludePath : String) (limit : Int) (anns : List Ann)
    (hlim : 0 < limit) (hep : excludePath ≠ "")
    (hothers : ∀ kv ∈ dm.annotations,
      skipGuard norm (some (norm excludePath)) kv.1 = true
        ∨ kv.2.filter (matchesPathology pathology) = [])
    (hrefs : ∀ ex ∈ refExamples.getD [],
      ex.image_stem = "" ∨ ex.anns = [] ∨
        dm.images.find? (fun img => stemOf img == ex.image_stem
          && !(([] : List String).contains (norm img))) = none)
    (hlook : alookup dm.annotations excludePath = some anns)
    (hmatch : anns.filter (matchesPathology pathology) ≠ []) :
    get_reference_images_for_pathology norm refExamples dm pathology limit
        (some excludePath)
      = [(excludePath, anns.filter (matchesPathology pathology))] := by
  have hanne : anns ≠ [] := by
    intro hh
    exact hmatch (by rw [hh]; rfl)
  have hscan := scanStore_no_hit norm pathology limit
    (some (norm excludePath)) dm.annotations [] hlim hothers
  have hself : selfFallback norm dm pathology excludePath (norm excludePath)
      = [(excludePath, anns.filter (matchesPathology pathology))] := by
    unfold selfFallback
    rw [hlook]
    simp [isEmpty_false_of_ne_nil hanne, isEmpty_false_of_ne_nil hmatch]
  unfold get_reference_images_for_pathology
  cases refExamples with
  | none => simp [hep, hscan, hself]
  | some exs =>
    by_cases himgs : dm.images.isEmpty = true
    · simp [himgs, hep, hscan, hself]
    · have hloop := refExamplesLoop_no_hit norm dm.images limit exs hlim hrefs
      simp [himgs, hloop, hep, hscan, hself]

/-- C7 witness: the fallback at a concrete store whose only match is the
excluded image itself. -/
theorem reference_self_fallback_witness :
    get_reference_images_for_pathology (fun s => s) none dmW "Nodule" 4
        (some "r/a.png")
      = [("r/a.png", [annW].filter (matchesPathology "Nodule"))] :=
  reference_self_fallback (fun s => s) none dmW "Nodule" "r/a.png" 4 [annW]
    (by decide) (by decide) (by decide) (by decide) rfl (by decide)

/-! ## C3 and C9: the co-occurrence matrix -/

theorem cntIdx_cons_none {p : String} (t : List String) {k : Nat}
    (hli : labelToIdx p = none) : cntIdx (p :: t) k = cntIdx t k := by
  unfold cntIdx
  rw [List.filter_cons]
  simp [hli]

theorem cntIdx_cons_some {p : String} (t : List String) {i2 k : Nat}
    (hli : labelToIdx p = some i2) :
    cntIdx (p :: t) k = (if i2 = k then 1 else 0) + cntIdx t k := by
  unfold cntIdx
  rw [List.filter_cons]
  by_cases hib : i2 = k
  · simp [hli, hib, Nat.add_comm]
  · simp [hli, hib]

theorem coocInnerFold_apply (i1 : Nat) (ps : List String) (m : Nat → Nat → Nat)
    (a b : Nat) :
    (ps.foldl
      (fun m p2 =>
        match labelToIdx p2 with
        | none => m
        | some i2 => bumpCell m i1 i2)
      m) a b = m a b + (if a = i1 then cntIdx ps b else 0) := by
  induction ps generalizing m with
  | nil => simp [cntIdx]
  | cons p t ih =>
    rw [List.foldl_cons]
    cases hli : labelToIdx p with
    | none =>
      dsimp only
      rw [ih, cntIdx_cons_none t hli]
    | some i2 =>
      dsimp only
      rw [ih, cntIdx_cons_some t hli]
      unfold bumpCell
      by_cases ha : a = i1 <;> by_cases hb : b = i2 <;>
        simp [ha, hb] <;> omega

theorem coocInner_apply (i1 : Nat) (ps : List String) (m : Nat → Nat → Nat)
    (a b : Nat) :
    coocInner m i1 ps a b = m a b + (if a = i1 then cntIdx ps b else 0) := by
  unfold coocInner
  exact coocInnerFold_apply i1 ps m a b

theorem coocOuterFold_apply (l ps : List String) (m : Nat → Nat → Nat)
    (a b : Nat) :
    (l.foldl
      (fun m p1 =>
        match labelToIdx p1 with
        | none => m
        | some i1 => coocInner m i1 ps)
      m) a b = m a b + cntIdx l a * cntIdx ps b := by
  induction l generalizing m with
  | nil => simp [cntIdx]
  | cons p t ih =>
    rw [List.foldl_cons]
    cases hli : labelToIdx p with
    | none =>
      dsimp only
      rw [ih, cntIdx_cons_none t hli]
    | some i1 =>
      dsimp only
      rw [ih, cntIdx_cons_some t hli, coocInner_apply]
      by_cases ha : a = i1
      · subst ha
        rw [if_pos rfl, if_pos rfl]
        ring
      · rw [if_neg ha, if_neg (fun hc => ha hc.symm)]
        ring

theorem coocOuter_apply (l ps : List String) (m : Nat → Nat → Nat)
    (a b : Nat) :
    coocOuter m l ps a b = m a b + cntIdx l a * cntIdx ps b := by
  unfold coocOuter
  exact coocOuterFold_apply l ps m a b

theorem coocFold_apply (eff : String → List String) (l : List String)
    (m0 : Nat → Nat → Nat) (i j : Nat) :
    (l.foldl (fun m p => coocStep m (eff p)) m0) i j
      = m0 i j + (l.map (fun p => cntIdx (eff p) i * cntIdx (eff p) j)).sum
    := by
  induction l generalizing m0 with
  | nil => simp
  | cons p t ih =>
    rw [List.foldl_cons, ih, List.map_cons, List.sum_cons]
    have hstep : coocStep m0 (eff p) i j
        = m0 i j + cntIdx (eff p) i * cntIdx (eff p) j := by
      unfold coocStep
      exact coocOuter_apply _ _ _ _ _
    rw [hstep]
    omega

theorem coocMatrixFun_apply (dm : DataManager) (b : Bool) (i j : Nat) :
    coocMatrixFun dm b i j
      = (dm.images.map (fun p => cntIdx (effectivePathologies dm b p) i
          * cntIdx (effectivePathologies dm b p) j)).sum := by
  have h := coocFold_apply (effectivePathologies dm b) dm.images
    (fun _ _ => 0) i j
  simpa using h

theorem idxIn_eq_some {l : List String} {p : String} {i : Nat}
    (h : idxIn l p = some i) : l.get? i = some p := by
  induction l generalizing i with
  | nil => simp [idxIn] at h
  | cons q r ih =>
    by_cases hq : q = p
    · rw [idxIn, if_pos hq] at h
      cases h
      simp [hq]
    · rw [idxIn, if_neg hq] at h
      cases hidx : idxIn r p with
      | none =>
        rw [hidx] at h
        simp at h
      | some n =>
        rw [hidx] at h
        simp only [Option.map_some'] at h
        cases h
        simpa using ih hidx

theorem idxIn_self {l : List String} (hnd : l.Nodup) (i : Nat)
    (h : i < l.length) : idxIn l l[i] = some i := by
  induction l generalizing i with
  | nil => simp at h
  | cons q r ih =>
    cases i with
    | zero => simp [idxIn]
    | succ n =>
      have hn : n < r.length := by
        simpa using h
      have hget : (q :: r)[n + 1] = r[n] := rfl
      have hq : q ≠ (q :: r)[n + 1] := by
        intro he
        have hmem : (q :: r)[n + 1] ∈ r := by
          rw [hget]
          exact List.getElem_mem hn
        exact (List.nodup_cons.mp hnd).1 (he ▸ hmem)
      rw [idxIn, if_neg hq, hget, ih (List.nodup_cons.mp hnd).2 n hn]
      rfl

theorem pathology_order_nodup : PATHOLOGY_ORDER.Nodup := by decide

theorem cntIdx_eq_indicator {ps : List String} (hnd : ps.Nodup) {i : Nat}
    (h : i < PATHOLOGY_ORDER.length) :
    cntIdx ps i = if PATHOLOGY_ORDER[i] ∈ ps then 1 else 0 := by
  have hpred : ∀ p, (labelToIdx p == some i)
      = (p == PATHOLOGY_ORDER[i]) := by
    intro p
    by_cases hp : p = PATHOLOGY_ORDER[i]
    · subst hp
      unfold labelToIdx
      rw [idxIn_self pathology_order_nodup i h]
      simp
    · have hno : labelToIdx p ≠ some i := by
        intro hc
        have hg := idxIn_eq_some hc
        have hg2 : PATHOLOGY_ORDER.get? i = some PATHOLOGY_ORDER[i] := by
          rw [List.get?_eq_get h]
          rfl
        rw [hg2] at hg
        cases hg
        exact hp rfl
      have hL : (labelToIdx p == some i) = false := by
        rw [beq_eq_false_iff_ne]
        exact hno
      have hR : (p == PATHOLOGY_ORDER[i]) = false := by
        rw [beq_eq_false_iff_ne]
        exact hp
      rw [hL, hR]
  unfold cntIdx
  rw [List.filter_congr (fun p _ => hpred p)]
  have hc : (ps.filter (fun p => p == PATHOLOGY_ORDER[i])).length
      = ps.count PATHOLOGY_ORDER[i] := by
    rw [List.count, List.countP_eq_length_filter]
  rw [hc]
  by_cases hm : PATHOLOGY_ORDER[i] ∈ ps
  · rw [if_pos hm]
    exact List.count_eq_one_of_mem hnd hm
  · rw [if_neg hm]
    exact List.count_eq_zero_of_not_mem hm

theorem effectivePathologies_nodup (dm : DataManager) (b : Bool)
    (p : String) : (effectivePathologies dm b p).Nodup := by
  unfold effectivePathologies
  by_cases hc : ((((alookup dm.metadata p).map Metadata.pathologies).getD
      []).dedup.isEmpty && !b) = true
  · rw [if_pos hc]
    exact List.nodup_dedup _
  · rw [if_neg hc]
    exact List.nodup_dedup _

theorem sum_map_ite_count {α : Type} (l : List α) (q : α → Bool) :
    (l.map (fun x => if q x then 1 else 0)).sum = (l.filter q).length := by
  induction l with
  | nil => rfl
  | cons a t ih =>
    rw [List.map_cons, List.sum_cons, List.filter_cons]
    by_cases hq : q a = true
    · simp [hq, ih, Nat.add_comm]
    · simp [hq, ih]

theorem coocMatrixFun_count (dm : DataManager) (b : Bool) (i j : Nat)
    (hi : i < PATHOLOGY_ORDER.length) (hj : j < PATHOLOGY_ORDER.length) :
    coocMatrixFun dm b i j
      = (dm.images.filter (fun p =>
          decide (PATHOLOGY_ORDER[i] ∈ effectivePathologies dm b p)
            && decide (PATHOLOGY_ORDER[j]
              ∈ effectivePathologies dm b p))).length := by
  rw [coocMatrixFun_apply, ← sum_map_ite_count]
  refine congrArg List.sum (List.map_congr_left ?_)
  intro p _
  rw [cntIdx_eq_indicator (effectivePathologies_nodup dm b p) hi,
    cntIdx_eq_indicator (effectivePathologies_nodup dm b p) hj]
  by_cases h1 : PATHOLOGY_ORDER[i] ∈ effectivePathologies dm b p <;>
    by_cases h2 : PATHOLOGY_ORDER[j] ∈ effectivePathologies dm b p <;>
    simp [h1, h2]

theorem cooc_entry_eq (dm : DataManager) (b : Bool) (i j : Nat)
    (hi : i < 14) (hj : j < 14) :
    ((get_cooccurrence_data dm b).2.getD i []).getD j 0
      = coocMatrixFun dm b i j := by
  unfold get_cooccurrence_data
  simp [List.getD_eq_getElem?_getD,
    List.getElem?_range (show i < PATHOLOGY_ORDER.length from hi),
    List.getElem?_range (show j < PATHOLOGY_ORDER.length from hj)]

theorem cooc_matrix_length (dm : DataManager) (b : Bool) :
    (get_cooccurrence_data dm b).2.length = 14 := by
  unfold get_cooccurrence_data
  simp only [List.length_map, List.length_range]
  rfl

theorem cooc_row_eq (dm : DataManager) (b : Bool) (i : Nat) (hi : i < 14) :
    (get_cooccurrence_data dm b).2.getD i []
      = (List.range PATHOLOGY_ORDER.length).map
          (fun j => coocMatrixFun dm b i j) := by
  unfold get_cooccurrence_data
  simp [List.getD_eq_getElem?_getD,
    List.getElem?_range (show i < PATHOLOGY_ORDER.length from hi)]

theorem cooc_row_oob (dm : DataManager) (b : Bool) (i j : Nat)
    (h : ¬ i < 14) :
    ((get_cooccurrence_data dm b).2.getD i []).getD j 0 = 0 := by
  have hlen : (get_cooccurrence_data dm b).2.length ≤ i := by
    rw [cooc_matrix_length]
    omega
  rw [List.getD_eq_getElem?_getD (get_cooccurrence_data dm b).2 i [],
    List.getElem?_eq_none hlen]
  simp

theorem cooc_col_oob (dm : DataManager) (b : Bool) (i j : Nat)
    (hi : i < 14) (h : ¬ j < 14) :
    ((get_cooccurrence_data dm b).2.getD i []).getD j 0 = 0 := by
  rw [cooc_row_eq dm b i hi]
  have hlen : ((List.range PATHOLOGY_ORDER.length).map
      (fun j => coocMatrixFun dm b i j)).length ≤ j := by
    simpa using Nat.le_of_not_lt h
  rw [List.getD_eq_getElem?_getD _ j 0, List.getElem?_eq_none hlen]
  rfl

theorem cntIdx_all_none {ps : List String}
    (h : ∀ q ∈ ps, labelToIdx q = none) (i : Nat) : cntIdx ps i = 0 := by
  induction ps with
  | nil => rfl
  | cons q t ih =>
    unfold cntIdx
    rw [List.filter_cons]
    have hq := h q (List.mem_cons_self _ _)
    simp only [hq]
    have ht := ih (fun q hq => h q (List.mem_cons_of_mem _ hq))
    unfold cntIdx at ht
    simp [ht]

theorem coocStep_all_out_of_vocab (m : Nat → Nat → Nat) (ps : List String)
    (h : ∀ q ∈ ps, labelToIdx q = none) : coocStep m ps = m := by
  funext a b
  unfold coocStep
  rw [coocOuter_apply, cntIdx_all_none h]
  simp

theorem cntIdx_filter_vocab (ps : List String) (i : Nat) :
    cntIdx (ps.filter (fun q => (labelToIdx q).isSome)) i = cntIdx ps i := by
  unfold cntIdx
  rw [List.filter_filter]
  refine congrArg List.length (List.filter_congr ?_)
  intro q _
  cases hq : labelToIdx q <;> simp [hq]

theorem coocStep_filter_vocab (m : Nat → Nat → Nat) (ps : List String) :
    coocStep m (ps.filter (fun q => (labelToIdx q).isSome)) = coocStep m ps
    := by
  funext a b
  unfold coocStep
  rw [coocOuter_apply, coocOuter_apply, cntIdx_filter_vocab,
    cntIdx_filter_vocab]

/-- C3: for every store and both values of `from_csv_only`,
`get_cooccurrence_data` returns the fixed 14-label list and a 14×14 matrix
that is symmetric and whose diagonal entry `(i, i)` equals the number of
images whose effective pathology set contains label `i`. -/
theorem cooccurrence_shape (dm : DataManager) (b : Bool) :
    (get_cooccurrence_data dm b).1 = PATHOLOGY_ORDER
      ∧ (get_cooccurrence_data dm b).2.length = 14
      ∧ (∀ row ∈ (get_cooccurrence_data dm b).2, row.length = 14)
      ∧ (∀ i j, ((get_cooccurrence_data dm b).2.getD i []).getD j 0
          = ((get_cooccurrence_data dm b).2.getD j []).getD i 0)
      ∧ (∀ i, (hi : i < PATHOLOGY_ORDER.length) →
          ((get_cooccurrence_data dm b).2.getD i []).getD i 0
            = (dm.images.filter (fun p =>
                decide (PATHOLOGY_ORDER[i]
                  ∈ effectivePathologies dm b p))).length) := by
  refine ⟨rfl, cooc_matrix_length dm b, ?_, ?_, ?_⟩
  · intro row hrow
    unfold get_cooccurrence_data at hrow
    simp only [List.mem_map] at hrow
    rcases hrow with ⟨i, _, hrow⟩
    rw [← hrow]
    simp only [List.length_map, List.length_range]
    rfl
  · intro i j
    by_cases hi : i < 14
    · by_cases hj : j < 14
      · rw [cooc_entry_eq dm b i j hi hj, cooc_entry_eq dm b j i hj hi,
          coocMatrixFun_count dm b i j hi hj,
          coocMatrixFun_count dm b j i hj hi]
        refine congrArg List.length (List.filter_congr ?_)
        intro p _
        exact Bool.and_comm _ _
      · rw [cooc_col_oob dm b i j hi hj, cooc_row_oob dm b j i hj]
    · by_cases hj : j < 14
      · rw [cooc_row_oob dm b i j hi, cooc_col_oob dm b j i hj hi]
      · rw [cooc_row_oob dm b i j hi, cooc_row_oob dm b j i hj]
  · intro i hi
    rw [cooc_entry_eq dm b i i hi hi, coocMatrixFun_count dm b i i hi hi]
    refine congrArg List.length (List.filter_congr ?_)
    intro p _
    exact Bool.and_self _

/-- C3 witness: the diagonal characterization at a concrete store. -/
theorem cooccurrence_shape_witness :
    ((get_cooccurrence_data dmW true).2.getD 0 []).getD 0 0
      = (dmW.images.filter (fun p =>
          decide (PATHOLOGY_ORDER[0]
            ∈ effectivePathologies dmW true p))).length :=
  (cooccurrence_shape dmW true).2.2.2.2 0 (by decide)

/-- C9: out-of-vocabulary pathology labels (including `"No Finding"` and any
unrecognized string) contribute nothing to any matrix cell: each cell
`(i, j)` counts exactly the images whose effective set contains the two
vocabulary labels, an image whose effective set is entirely
out-of-vocabulary leaves the matrix unchanged (its per-image update is the
identity), and restricting a pathology set to the vocabulary before the
per-image update does not change it. -/
theorem cooccurrence_out_of_vocab (dm : DataManager) (b : Bool) :
    (∀ i j, (hi : i < PATHOLOGY_ORDER.length) →
      (hj : j < PATHOLOGY_ORDER.length) →
      ((get_cooccurrence_data dm b).2.getD i []).getD j 0
        = (dm.images.filter (fun p =>
            decide (PATHOLOGY_ORDER[i] ∈ effectivePathologies dm b p)
              && decide (PATHOLOGY_ORDER[j]
                ∈ effectivePathologies dm b p))).length)
    ∧ (∀ (m : Nat → Nat → Nat) (ps : List String),
        (∀ q ∈ ps, labelToIdx q = none) → coocStep m ps = m)
    ∧ (∀ (m : Nat → Nat → Nat) (ps : List String),
        coocStep m (ps.filter (fun q => (labelToIdx q).isSome))
          = coocStep m ps) := by
  refine ⟨?_, ?_, ?_⟩
  · intro i j hi hj
    rw [cooc_entry_eq dm b i j hi hj]
    exact coocMatrixFun_count dm b i j hi hj
  · intro m ps h
    exact coocStep_all_out_of_vocab m ps h
  · intro m ps
    exact coocStep_filter_vocab m ps

/-- C9 witness: the cell characterization and the out-of-vocabulary
identity at concrete inputs. -/
theorem cooccurrence_out_of_vocab_witness :
    (((get_cooccurrence_data dmW false).2.getD 0 []).getD 2 0
      = (dmW.images.filter (fun p =>
          decide (PATHOLOGY_ORDER[0] ∈ effectivePathologies dmW false p)
            && decide (PATHOLOGY_ORDER[2]
              ∈ effectivePathologies dmW false p))).length)
    ∧ coocStep (fun _ _ => 0) ["No Finding", "Bogus"] = (fun _ _ => 0) :=
  ⟨(cooccurrence_out_of_vocab dmW false).1 0 2 (by decide) (by decide),
    (cooccurrence_out_of_vocab dmW false).2.1 (fun _ _ => 0)
      ["No Finding", "Bogus"] (by decide)⟩
